import Mathlib

/-
Verification development for the talk2browser repository.

The Python modules under verification are embedded shallowly:

  * `src/talk2browser/services/sensitive_data_service.py`
    (SensitiveDataService.get_placeholder_for_value, SensitiveDataService.get)
  * `src/talk2browser/utils/secret_resolver.py` (resolve_secret_placeholders)
  * `src/talk2browser/services/action_service.py`
    (record_agent_action, record_manual_action, _compute_action_key,
     _perform_realtime_merge)
  * `src/talk2browser/browser/dom/service.py`
    (DOMElement.element_hash incl. an executable MD5 and the canonical JSON
     serialisation, the two same-named definitions of get_interactive_elements,
     find_element_by_hash, click_element_by_hash)
  * `src/talk2browser/tools/script_tools.py`
    (resolve_placeholders, replay_action_json_with_playwright)

Python dicts are modelled as association lists with unique keys (lookups take
the first matching entry, deletions remove every entry for a key, which on the
unique-key domain agrees with dict.pop).  Machine-word arithmetic in MD5 uses
Nat with explicit reduction modulo 2^32.
-/

set_option maxHeartbeats 1000000

/-! ## Generic association-list and string helpers -/

/-- First-match lookup in an association list, mirroring `d[k]` / `d.get(k)`
on a Python dict (dict keys are unique, so first match is the match). -/
def lookupAssoc {V : Type} : List (String × V) → String → Option V
  | [], _ => none
  | (k, v) :: rest, key => if k = key then some v else lookupAssoc rest key

/-- Membership test for a key, mirroring `k in d`. -/
def hasKey {V : Type} (l : List (String × V)) (k : String) : Bool :=
  (lookupAssoc l k).isSome

/-- Update the value stored at a key in place (first occurrence), mirroring
`d[k] = v` when `k` is already present. -/
def setKey {V : Type} : List (String × V) → String → V → List (String × V)
  | [], _, _ => []
  | (k, v) :: rest, key, nv =>
      if k = key then (k, nv) :: rest else (k, v) :: setKey rest key nv

/-- Remove every entry for a key, mirroring `d.pop(k)` on a dict
(whose keys are unique). -/
def removeKey {V : Type} : List (String × V) → String → List (String × V)
  | [], _ => []
  | (k, v) :: rest, key =>
      if k = key then removeKey rest key else (k, v) :: removeKey rest key

/-- Dict assignment `d[k] = v`: update in place if the key exists, else append
at the end (Python dicts preserve first-insertion position on re-assignment). -/
def dictInsert {V : Type} (m : List (String × V)) (k : String) (v : V) :
    List (String × V) :=
  if hasKey m k then setKey m k v else m ++ [(k, v)]

/-- Whitespace class used by Python `str.strip()` (the ASCII part). -/
def pyIsSpace (c : Char) : Bool :=
  c = ' ' || c = '\t' || c = '\n' || c = '\r' || c = '\x0b' || c = '\x0c'

/-- Python `str.strip()`: drop leading and trailing whitespace. -/
def pyStrip (s : String) : String :=
  ⟨((s.toList.dropWhile pyIsSpace).reverse.dropWhile pyIsSpace).reverse⟩

/-- Python `str.split()` with no separator: split on runs of whitespace,
discarding empty pieces. -/
def pySplitWsAux : List Char → List Char → List String
  | [], [] => []
  | [], acc => [⟨acc.reverse⟩]
  | c :: rest, acc =>
      if pyIsSpace c then
        match acc with
        | [] => pySplitWsAux rest []
        | _ => ⟨acc.reverse⟩ :: pySplitWsAux rest []
      else pySplitWsAux rest (c :: acc)

/-- Python `s.split()` (no argument). -/
def pySplitWs (s : String) : List String :=
  pySplitWsAux s.toList []

/-! ## SensitiveDataService (`services/sensitive_data_service.py`) -/

/-- Secret configuration: the runtime secrets dict passed to
`SensitiveDataService.configure`, plus the process environment `os.environ`
(both iterated in order).  Claims speak of a configured service, so the
`_instance is None` early-outs are modelled by the configuration being given. -/
structure SecretsConfig where
  runtimeSecrets : List (String × String)
  envVars : List (String × String)

/-- First entry whose whitespace-stripped value equals the (already stripped)
search value: the loop body of `get_placeholder_for_value`. -/
def findStrippedMatch : List (String × String) → String → Option (String × String)
  | [], _ => none
  | (k, v) :: rest, norm =>
      if pyStrip v = norm then some (k, v) else findStrippedMatch rest norm

/-- `SensitiveDataService.get_placeholder_for_value`: normalise the value by
stripping, scan the runtime secrets then the environment for a stripped-equal
value, and return `${KEY}` for the first match, else `None`. -/
def get_placeholder_for_value (cfg : SecretsConfig) (value : String) :
    Option String :=
  let norm := pyStrip value
  match findStrippedMatch cfg.runtimeSecrets norm with
  | some (key, _) => some ("$\x7b" ++ key ++ "\x7d")
  | none =>
      match findStrippedMatch cfg.envVars norm with
      | some (key, _) => some ("$\x7b" ++ key ++ "\x7d")
      | none => none

/-- `SensitiveDataService.get`: runtime secrets first, then the environment. -/
def svcGet (cfg : SecretsConfig) (key : String) : Option String :=
  match lookupAssoc cfg.runtimeSecrets key with
  | some v => some v
  | none => lookupAssoc cfg.envVars key

/-- List prefix test (Boolean). -/
def listIsPre : List Char → List Char → Bool
  | [], _ => true
  | _ :: _, [] => false
  | a :: as, b :: bs => a = b && listIsPre as bs

/-- Python `s.startswith(p)` (character-based). -/
def pyStartsWith (s p : String) : Bool := listIsPre p.toList s.toList

/-- Python `s.endswith(p)` (character-based). -/
def pyEndsWith (s p : String) : Bool :=
  listIsPre p.toList.reverse s.toList.reverse

/-- Character class of the regex `[A-Z0-9_]` in `secret_resolver.py`. -/
def isUpperWordChar (c : Char) : Bool :=
  ('A' ≤ c && c ≤ 'Z') || ('0' ≤ c && c ≤ '9') || c = '_'

/-- Inner text of `value[2:-1]`, used after a `${`…`}` delimiter check. -/
def innerOfPlaceholder (value : String) : String :=
  ⟨(value.toList.drop 2).dropLast⟩

/-- Full match of `r"\$\{([A-Z0-9_]+)\}"` as in `re.fullmatch`, returning the
captured group. -/
def fullmatchUpperPlaceholder (value : String) : Option String :=
  if pyStartsWith value "$\x7b" && pyEndsWith value "\x7d" then
    let inner := innerOfPlaceholder value
    if inner ≠ "" && inner.toList.all isUpperWordChar then some inner else none
  else none

/-- `resolve_secret_placeholders` from `utils/secret_resolver.py`: strip the
`${`…`}` wrapper if present (else use the value itself as the key), look the
key up via `SensitiveDataService.get`; on failure retry with the
`[A-Z0-9_]+` full-match capture; otherwise return the value unchanged. -/
def resolve_secret_placeholders (cfg : SecretsConfig) (value : String) : String :=
  let key :=
    if pyStartsWith value "$\x7b" && pyEndsWith value "\x7d" then
      innerOfPlaceholder value
    else value
  match svcGet cfg key with
  | some s => s
  | none =>
      match fullmatchUpperPlaceholder value with
      | some var =>
          match svcGet cfg var with
          | some s => s
          | none => value
      | none => value

/-! ## ActionService (`services/action_service.py`) -/

/-- An action record as handled by `ActionService`: the `type` field
(`action.get('type', '')`) and the `args` dict.  Argument values are modelled
as strings; the masking path compares values against secrets with `==`, under
which non-string values never match, so string values carry all behaviour the
claims exercise. -/
structure ActionRec where
  type : String
  args : List (String × String)
deriving DecidableEq, Repr

/-- Mutable channels of the `ActionService` singleton. -/
structure ActionState where
  manual_actions : List ActionRec
  agent_actions : List ActionRec
  merged : List ActionRec
deriving DecidableEq, Repr

/-- Mask one args entry (`for key in ['text', 'value']` body): if the key is
present and `get_placeholder_for_value` finds a placeholder, overwrite the
value in place. -/
def maskValueKey (cfg : SecretsConfig) (args : List (String × String))
    (key : String) : List (String × String) :=
  match lookupAssoc args key with
  | some real =>
      match get_placeholder_for_value cfg real with
      | some ph => setKey args key ph
      | none => args
  | none => args

/-- Sensitive-data masking step of `record_agent_action`: applied to the keys
`text` then `value`, in that order. -/
def maskSensitiveArgs (cfg : SecretsConfig) (args : List (String × String)) :
    List (String × String) :=
  maskValueKey cfg (maskValueKey cfg args "text") "value"

/-- Transformation `record_agent_action` applies to an action before appending:
mask `text`/`value` when the type is `fill` or `type`, then unconditionally pop
any `hash` key from args.  (The hash-resolution block earlier in the function
computes a local `hash_val` for logging only and never writes it into `args`.) -/
def processAgentAction (cfg : SecretsConfig) (a : ActionRec) : ActionRec :=
  let args :=
    if a.type = "fill" ∨ a.type = "type" then maskSensitiveArgs cfg a.args
    else a.args
  let args := removeKey args "hash"
  { a with args := args }

/-- Action types that never get a merge key (`non_element_actions` in
`_compute_action_key`). -/
def non_element_actions : List String :=
  ["navigate", "wait_for_timeout", "screenshot", "generate_pdf_from_html"]

/-- `ActionService._compute_action_key`: prefer `args['hash']`; non-element
actions get no key; otherwise fall back to `type:selector` when the selector
is truthy (a non-empty string). -/
def compute_action_key (a : ActionRec) : Option String :=
  match lookupAssoc a.args "hash" with
  | some h => some h
  | none =>
      if a.type ∈ non_element_actions then none
      else
        let selector := (lookupAssoc a.args "selector").getD ""
        if selector = "" then none else some (a.type ++ ":" ++ selector)

/-- Merge key restricted to Python-truthy values: the comprehension guard
`if self._compute_action_key(a)` drops both `None` and the empty string. -/
def truthyKey (a : ActionRec) : Option String :=
  match compute_action_key a with
  | some k => if k = "" then none else some k
  | none => none

/-- Accumulator pass building
`{key(a): a for a in manual_actions if key(a)}` left to right. -/
def buildManualMapAux : List (String × ActionRec) → List ActionRec →
    List (String × ActionRec)
  | m, [] => m
  | m, a :: rest =>
      match truthyKey a with
      | some k => buildManualMapAux (dictInsert m k a) rest
      | none => buildManualMapAux m rest

/-- The `manual_map` dict of `_perform_realtime_merge`. -/
def buildManualMap (manual : List ActionRec) : List (String × ActionRec) :=
  buildManualMapAux [] manual

/-- Walk of the agent channel in `_perform_realtime_merge`: emit the manual
record when the agent record's key is in `manual_map` (recording the key as
used), else pass the agent record through.  Returns the emitted list and the
`used_manual_keys` set. -/
def mergeWalk (mmap : List (String × ActionRec)) :
    List ActionRec → List String → List ActionRec × List String
  | [], used => ([], used)
  | a :: rest, used =>
      match compute_action_key a with
      | some k =>
          match lookupAssoc mmap k with
          | some ma =>
              let r := mergeWalk mmap rest (k :: used)
              (ma :: r.1, r.2)
          | none =>
              let r := mergeWalk mmap rest used
              (a :: r.1, r.2)
      | none =>
          let r := mergeWalk mmap rest used
          (a :: r.1, r.2)

/-- `ActionService._perform_realtime_merge` as a pure function of the two
channels: walk the agent channel, then append the manual-map entries whose key
was never used.  (The element-map consultations in the source only emit log
warnings.) -/
def perform_realtime_merge (agent manual : List ActionRec) : List ActionRec :=
  let mmap := buildManualMap manual
  let w := mergeWalk mmap agent []
  w.1 ++ (mmap.filter (fun p => !(w.2.contains p.1))).map (fun p => p.2)

/-- `ActionService.record_agent_action`: transform (mask + hash removal),
append to the agent channel, re-merge. -/
def record_agent_action (cfg : SecretsConfig) (st : ActionState)
    (a : ActionRec) : ActionState :=
  let a2 := processAgentAction cfg a
  let agent := st.agent_actions ++ [a2]
  { st with
    agent_actions := agent
    merged := perform_realtime_merge agent st.manual_actions }

/-- `ActionService.record_manual_action`: append the action to the manual
channel unchanged (the source performs no masking on this path), re-merge. -/
def record_manual_action (st : ActionState) (a : ActionRec) : ActionState :=
  let manual := st.manual_actions ++ [a]
  { st with
    manual_actions := manual
    merged := perform_realtime_merge st.agent_actions manual }

/-! ## MD5 (model of `hashlib.md5(...).hexdigest()`)

All word arithmetic is on `Nat` reduced modulo `2 ^ 32`; the bitwise
operations are fuel-structural so that they reduce in the kernel. -/

/-- Bitwise AND of the low `fuel` bits. -/
def bitAndAux : Nat → Nat → Nat → Nat
  | 0, _, _ => 0
  | fuel + 1, a, b =>
      (if a % 2 = 1 ∧ b % 2 = 1 then 1 else 0) + 2 * bitAndAux fuel (a / 2) (b / 2)

/-- Bitwise OR of the low `fuel` bits. -/
def bitOrAux : Nat → Nat → Nat → Nat
  | 0, _, _ => 0
  | fuel + 1, a, b =>
      (if a % 2 = 1 ∨ b % 2 = 1 then 1 else 0) + 2 * bitOrAux fuel (a / 2) (b / 2)

/-- Bitwise XOR of the low `fuel` bits. -/
def bitXorAux : Nat → Nat → Nat → Nat
  | 0, _, _ => 0
  | fuel + 1, a, b =>
      (if (a % 2 = 1) ≠ (b % 2 = 1) then 1 else 0) + 2 * bitXorAux fuel (a / 2) (b / 2)

/-- 32-bit AND. -/
def band32 (a b : Nat) : Nat := bitAndAux 32 a b

/-- 32-bit OR. -/
def bor32 (a b : Nat) : Nat := bitOrAux 32 a b

/-- 32-bit XOR. -/
def bxor32 (a b : Nat) : Nat := bitXorAux 32 a b

/-- 32-bit complement (for a word already reduced modulo `2 ^ 32`). -/
def bnot32 (a : Nat) : Nat := 4294967295 - a % 4294967296

/-- Left rotation of a 32-bit word. -/
def rotl32 (x s : Nat) : Nat :=
  (x % 2 ^ (32 - s)) * 2 ^ s + x / 2 ^ (32 - s)

/-- The 64 MD5 sine constants `K[i] = floor(2^32 * abs(sin(i + 1)))`. -/
def md5K : List Nat :=
  [0xd76aa478, 0xe8c7b756, 0x242070db, 0xc1bdceee,
   0xf57c0faf, 0x4787c62a, 0xa8304613, 0xfd469501,
   0x698098d8, 0x8b44f7af, 0xffff5bb1, 0x895cd7be,
   0x6b901122, 0xfd987193, 0xa679438e, 0x49b40821,
   0xf61e2562, 0xc040b340, 0x265e5a51, 0xe9b6c7aa,
   0xd62f105d, 0x02441453, 0xd8a1e681, 0xe7d3fbc8,
   0x21e1cde6, 0xc33707d6, 0xf4d50d87, 0x455a14ed,
   0xa9e3e905, 0xfcefa3f8, 0x676f02d9, 0x8d2a4c8a,
   0xfffa3942, 0x8771f681, 0x6d9d6122, 0xfde5380c,
   0xa4beea44, 0x4bdecfa9, 0xf6bb4b60, 0xbebfbc70,
   0x289b7ec6, 0xeaa127fa, 0xd4ef3085, 0x04881d05,
   0xd9d4d039, 0xe6db99e5, 0x1fa27cf8, 0xc4ac5665,
   0xf4292244, 0x432aff97, 0xab9423a7, 0xfc93a039,
   0x655b59c3, 0x8f0ccc92, 0xffeff47d, 0x85845dd1,
   0x6fa87e4f, 0xfe2ce6e0, 0xa3014314, 0x4e0811a1,
   0xf7537e82, 0xbd3af235, 0x2ad7d2bb, 0xeb86d391]

/-- The MD5 per-round left-rotation amounts. -/
def md5S : List Nat :=
  [7, 12, 17, 22, 7, 12, 17, 22, 7, 12, 17, 22, 7, 12, 17, 22,
   5, 9, 14, 20, 5, 9, 14, 20, 5, 9, 14, 20, 5, 9, 14, 20,
   4, 11, 16, 23, 4, 11, 16, 23, 4, 11, 16, 23, 4, 11, 16, 23,
   6, 10, 15, 21, 6, 10, 15, 21, 6, 10, 15, 21, 6, 10, 15, 21]

/-- Little-endian 32-bit word `g` of a 64-byte chunk. -/
def leWord (bs : List Nat) (g : Nat) : Nat :=
  bs.getD (4 * g) 0 + 256 * bs.getD (4 * g + 1) 0 +
    65536 * bs.getD (4 * g + 2) 0 + 16777216 * bs.getD (4 * g + 3) 0

/-- One MD5 round on the state `(a, b, c, d)`. -/
def md5Round (m : Nat → Nat) (st : Nat × Nat × Nat × Nat) (i : Nat) :
    Nat × Nat × Nat × Nat :=
  let a := st.1
  let b := st.2.1
  let c := st.2.2.1
  let d := st.2.2.2
  let f :=
    if i < 16 then bor32 (band32 b c) (band32 (bnot32 b) d)
    else if i < 32 then bor32 (band32 d b) (band32 (bnot32 d) c)
    else if i < 48 then bxor32 (bxor32 b c) d
    else bxor32 c (bor32 b (bnot32 d))
  let g :=
    if i < 16 then i
    else if i < 32 then (5 * i + 1) % 16
    else if i < 48 then (3 * i + 5) % 16
    else (7 * i) % 16
  let tmp := (f + a + md5K.getD i 0 + m g) % 4294967296
  let nb := (b + rotl32 tmp (md5S.getD i 0)) % 4294967296
  (d, nb, b, c)

/-- Process one 64-byte chunk. -/
def md5ProcessChunk (st : Nat × Nat × Nat × Nat) (chunk : List Nat) :
    Nat × Nat × Nat × Nat :=
  let m := fun g => leWord chunk (g % 16)
  let r := (List.range 64).foldl (md5Round m) st
  ((st.1 + r.1) % 4294967296, (st.2.1 + r.2.1) % 4294967296,
   (st.2.2.1 + r.2.2.1) % 4294967296, (st.2.2.2 + r.2.2.2) % 4294967296)

/-- Little-endian bytes of a 64-bit length value. -/
def leBytes8 (n : Nat) : List Nat :=
  [n % 256, n / 256 % 256, n / 65536 % 256, n / 16777216 % 256,
   n / 4294967296 % 256, n / 1099511627776 % 256,
   n / 281474976710656 % 256, n / 72057594037927936 % 256]

/-- Little-endian bytes of a 32-bit word. -/
def leBytes4 (n : Nat) : List Nat :=
  [n % 256, n / 256 % 256, n / 65536 % 256, n / 16777216 % 256]

/-- MD5 padding: `0x80`, zeros to 56 mod 64, then the bit length as eight
little-endian bytes. -/
def md5Pad (msg : List Nat) : List Nat :=
  let len := msg.length
  msg ++ [0x80] ++ List.replicate ((120 - (len + 1) % 64) % 64) 0 ++
    leBytes8 ((8 * len) % 2 ^ 64)

/-- Split into 64-byte chunks (fuel-structural). -/
def chunks64Aux : Nat → List Nat → List (List Nat)
  | 0, _ => []
  | _ + 1, [] => []
  | fuel + 1, l => l.take 64 :: chunks64Aux fuel (l.drop 64)

/-- Split a padded message into its 64-byte chunks. -/
def chunks64 (l : List Nat) : List (List Nat) :=
  chunks64Aux l.length l

/-- Serialise the final state as 16 digest bytes. -/
def quadToBytes (st : Nat × Nat × Nat × Nat) : List Nat :=
  leBytes4 st.1 ++ leBytes4 st.2.1 ++ leBytes4 st.2.2.1 ++ leBytes4 st.2.2.2

/-- MD5 digest (16 bytes) of a byte message. -/
def md5Bytes (msg : List Nat) : List Nat :=
  quadToBytes ((chunks64 (md5Pad msg)).foldl md5ProcessChunk
    (0x67452301, 0xefcdab89, 0x98badcfe, 0x10325476))

/-- The sixteen lowercase hexadecimal digit characters. -/
def hexDigitChars : List Char := "0123456789abcdef".toList

/-- Lowercase hex digit for a nibble. -/
def hexDigit (n : Nat) : Char := hexDigitChars.getD n '0'

/-- Two lowercase hex characters per byte, in order. -/
def bytesToHex : List Nat → List Char
  | [] => []
  | b :: rest => hexDigit (b / 16 % 16) :: hexDigit (b % 16) :: bytesToHex rest

/-- `hashlib.md5(bytes).hexdigest()`. -/
def md5Hex (msg : List Nat) : String := ⟨bytesToHex (md5Bytes msg)⟩

/-- UTF-8 encoding of one character. -/
def utf8Char (c : Char) : List Nat :=
  let n := c.toNat
  if n < 0x80 then [n]
  else if n < 0x800 then [0xc0 + n / 64, 0x80 + n % 64]
  else if n < 0x10000 then [0xe0 + n / 4096, 0x80 + n / 64 % 64, 0x80 + n % 64]
  else [0xf0 + n / 262144, 0x80 + n / 4096 % 64, 0x80 + n / 64 % 64, 0x80 + n % 64]

/-- `str.encode('utf-8')`. -/
def utf8Encode (s : String) : List Nat :=
  (s.toList.map utf8Char).flatten

/-! ## Canonical JSON serialisation (model of `json.dumps(..., sort_keys=True)`) -/

/-- Four lowercase hex digits, as in Python's `\uXXXX` escapes. -/
def hex4 (n : Nat) : String :=
  ⟨[hexDigit (n / 4096 % 16), hexDigit (n / 256 % 16),
    hexDigit (n / 16 % 16), hexDigit (n % 16)]⟩

/-- A `\uXXXX` escape (with a surrogate pair above the BMP), as produced by
`json.dumps` with its default `ensure_ascii=True`. -/
def uEscape (c : Char) : String :=
  let n := c.toNat
  if n < 0x10000 then "\\u" ++ hex4 n
  else
    let m := n - 0x10000
    "\\u" ++ hex4 (0xd800 + m / 0x400) ++ "\\u" ++ hex4 (0xdc00 + m % 0x400)

/-- Escape one character the way `json.dumps` (ASCII mode) does. -/
def jsonEscapeChar (c : Char) : String :=
  if c = '"' then "\\\""
  else if c = '\\' then "\\\\"
  else if c = '\n' then "\\n"
  else if c = '\r' then "\\r"
  else if c = '\t' then "\\t"
  else if c = '\x08' then "\\b"
  else if c = '\x0c' then "\\f"
  else if c.toNat < 0x20 ∨ c.toNat > 0x7e then uEscape c
  else String.singleton c

/-- A JSON string literal. -/
def jsonStr (s : String) : String :=
  "\"" ++ String.join (s.toList.map jsonEscapeChar) ++ "\""

/-- A JSON string-or-null, for `attributes.get(key)` results. -/
def jsonOptStr : Option String → String
  | none => "null"
  | some s => jsonStr s

/-- A JSON array of strings with the default `", "` separator. -/
def jsonStrArray (l : List String) : String :=
  "[" ++ String.intercalate ", " (l.map jsonStr) ++ "]"

/-! ## DOMElement and its fingerprint (`browser/dom/service.py`) -/

/-- A scanned DOM element.  `bounds`, `computed_style` and `node_type` are
omitted: nothing the claims touch reads them.  The `text` field stores the
already-stripped text, as `__init__` does `self.text = (text or '').strip()`. -/
structure DOMElement where
  tag_name : String
  xpath : String
  attributes : List (String × String)
  is_visible : Bool
  is_interactive : Bool
  is_in_viewport : Bool
  highlight_index : Option Nat
  text : String
deriving DecidableEq, Repr

/-- The canonical `hash_data` dict of `DOMElement.element_hash`, serialised by
`json.dumps(hash_data, sort_keys=True)`: the ten fields in sorted key order
with the default `", "`/`": "` separators. -/
def hashDataStr (e : DOMElement) : String :=
  let get := fun (k : String) => lookupAssoc e.attributes k
  "\x7b\"aria-label\": " ++ jsonOptStr (get "aria-label") ++
    ", \"classes\": " ++ jsonStrArray (pySplitWs ((get "class").getD "")) ++
    ", \"id\": " ++ jsonOptStr (get "id") ++
    ", \"name\": " ++ jsonOptStr (get "name") ++
    ", \"placeholder\": " ++ jsonOptStr (get "placeholder") ++
    ", \"role\": " ++ jsonOptStr (get "role") ++
    ", \"tag\": " ++ jsonStr e.tag_name ++
    ", \"text\": " ++ jsonStr e.text ++
    ", \"type\": " ++ jsonOptStr (get "type") ++
    ", \"xpath\": " ++ jsonStr e.xpath ++ "\x7d"

/-- `DOMElement.element_hash`: MD5 hexdigest of the UTF-8 bytes of the
canonical serialisation.  The source caches the digest on first access; the
cache never changes the value, so the property is modelled as the function
itself. -/
def element_hash (e : DOMElement) : String :=
  md5Hex (utf8Encode (hashDataStr e))

/-! ## DOMService (`browser/dom/service.py`) -/

/-- The fields of one entry of `dom_tree['map']` that the scan loop reads. -/
structure ElemData where
  tagName : String
  text : String
  xpath : String
  attributes : List (String × String)
  isInteractive : Bool
  isVisible : Bool
  isInViewport : Bool
  highlightIndex : Option Nat
deriving DecidableEq, Repr

/-- Construction of a `DOMElement` from one map entry, as both scan loops do
(`tag_name=...lower()`, `text=....strip()`, `is_interactive=True`). -/
def elementOfData (d : ElemData) : DOMElement :=
  { tag_name := d.tagName.toLower
    xpath := d.xpath
    attributes := d.attributes
    is_visible := d.isVisible
    is_interactive := true
    is_in_viewport := d.isInViewport
    highlight_index := d.highlightIndex
    text := pyStrip d.text }

/-- Net effect of the attribute-enrichment block in the first (shadowed)
`get_interactive_elements`: the `role`/`placeholder`/`aria-*` copies read from
the same dict they write to and change nothing; only a truthy `label` value is
re-stored stripped. -/
def enrichAttributes (attrs : List (String × String)) : List (String × String) :=
  match lookupAssoc attrs "label" with
  | some l => if l = "" then attrs else setKey attrs "label" (pyStrip l)
  | none => attrs

/-- Mutable state of a `DOMService` instance. -/
structure DOMState where
  element_history_map : List (String × DOMElement)
  last_page_url : Option String
  interactive_elements : List DOMElement
  element_map : List (String × String)
deriving DecidableEq, Repr

/-- A fresh `DOMService` (`__init__`). -/
def initialDOMState : DOMState :=
  { element_history_map := []
    last_page_url := none
    interactive_elements := []
    element_map := [] }

/-- Loop body of the FIRST (textually earlier, shadowed) definition of
`DOMService.get_interactive_elements`: merge one interactive element into the
history map — overwrite the stored element in place on a hash hit
(`__dict__.update`), else insert at the end. -/
def scanStepFirst (st : DOMState) (d : ElemData) : DOMState :=
  if d.isInteractive then
    let e := { elementOfData d with attributes := enrichAttributes d.attributes }
    let h := element_hash e
    if (lookupAssoc st.element_history_map h).isSome then
      { st with element_history_map := setKey st.element_history_map h e }
    else
      { st with element_history_map := st.element_history_map ++ [(h, e)] }
  else st

/-- The FIRST (textually earlier, shadowed) definition of
`DOMService.get_interactive_elements`: clear the history map when the URL
changed, record the URL, then merge every interactive element into the history
map and return the map values.  `tree = none` models an invalid DOM tree or a
caught evaluation error, returning `[]`. -/
def get_interactive_elements_first (st : DOMState) (current_url : String)
    (tree : Option (List ElemData)) : DOMState × List DOMElement :=
  let st :=
    if st.last_page_url ≠ some current_url then
      { st with element_history_map := [] }
    else st
  let st := { st with last_page_url := some current_url }
  match tree with
  | none => (st, [])
  | some ds =>
      let st := ds.foldl scanStepFirst st
      (st, st.element_history_map.map (fun p => p.2))

/-- Loop body of the SECOND definition of `get_interactive_elements`: append
the element and store `'#' + element_hash ↦ xpath` in the element map. -/
def scanStepEffective (st : DOMState) (d : ElemData) : DOMState :=
  if d.isInteractive then
    let e := elementOfData d
    { st with
      interactive_elements := st.interactive_elements ++ [e]
      element_map := dictInsert st.element_map ("#" ++ element_hash e) e.xpath }
  else st

/-- The SECOND definition of `DOMService.get_interactive_elements` — the one
Python actually binds (it shadows the first): reset `_interactive_elements`
and `_element_map`, collect the interactive elements, store
`'#' + element_hash ↦ xpath` in the element map.  It never reads or writes
`_element_history_map` or `_last_page_url`. -/
def get_interactive_elements (st : DOMState) (tree : Option (List ElemData)) :
    DOMState × List DOMElement :=
  let st := { st with interactive_elements := [], element_map := [] }
  match tree with
  | none => (st, [])
  | some ds =>
      let st := ds.foldl scanStepEffective st
      (st, st.interactive_elements)

/-- Python `s.lstrip('#')`: drop every leading `#`. -/
def stripHashMarks (s : String) : String :=
  ⟨s.toList.dropWhile (fun c => c = '#')⟩

/-- `DOMService.find_element_by_hash`: rescan (via the effective
`get_interactive_elements`) only when the history map is EMPTY, then do a
single lookup.  Returns the state, the lookup result, and how many rescans
were performed.  `tree` is what a rescan would observe. -/
def find_element_by_hash (st : DOMState) (tree : Option (List ElemData))
    (element_hash_arg : String) : DOMState × Option DOMElement × Nat :=
  let h := stripHashMarks element_hash_arg
  if st.element_history_map.isEmpty then
    let st2 := (get_interactive_elements st tree).1
    (st2, lookupAssoc st2.element_history_map h, 1)
  else
    (st, lookupAssoc st.element_history_map h, 0)

/-- `DOMService.click_element_by_hash`: look up the history map; on a miss
rescan once and retry once; if still missing return `False`.  On a hit the
click itself is the driver's business: `click_ok` models whether the
locator wait/click succeeds.  The `Nat` counts rescans. -/
def click_element_by_hash (st : DOMState) (tree : Option (List ElemData))
    (click_ok : Bool) (element_hash_arg : String) : DOMState × Bool × Nat :=
  let h := stripHashMarks element_hash_arg
  match lookupAssoc st.element_history_map h with
  | some _ => (st, click_ok, 0)
  | none =>
      let st2 := (get_interactive_elements st tree).1
      match lookupAssoc st2.element_history_map h with
      | some _ => (st2, click_ok, 1)
      | none => (st2, false, 1)

/-! ## Replay engine (`tools/script_tools.py`) -/

/-- JSON values as loaded by `json.load`, for the records of a replayed
action file. -/
inductive JVal where
  | jstr : String → JVal
  | jnum : Int → JVal
  | jbool : Bool → JVal
  | jnull : JVal
  | jarr : List JVal → JVal
  | jobj : List (String × JVal) → JVal

/-- Word-character class of the regex `\w` (the ASCII part, which is all the
recorded placeholder names use). -/
def isWordChar (c : Char) : Bool :=
  c.isAlpha || c.isDigit || c = '_'

/-- One left-to-right pass of `re.sub(r"\$\{(\w+)\}", repl, val)`: every
occurrence of `${NAME}` is replaced by the environment value when `NAME` is
set, and LEFT IN PLACE otherwise (`return match.group(0)`).  Fuel-structural;
the fuel is the remaining length. -/
def subPlaceholdersAux (env : List (String × String)) :
    Nat → List Char → List Char
  | 0, cs => cs
  | _ + 1, [] => []
  | fuel + 1, c :: rest =>
      if c = '$' then
        match rest with
        | [] => c :: subPlaceholdersAux env fuel rest
        | c2 :: rest2 =>
            if c2 = '\x7b' then
              let name := rest2.takeWhile isWordChar
              if name = [] then c :: subPlaceholdersAux env fuel rest
              else
                match rest2.dropWhile isWordChar with
                | c3 :: tail =>
                    if c3 = '\x7d' then
                      match lookupAssoc env (⟨name⟩ : String) with
                      | some v => v.toList ++ subPlaceholdersAux env fuel tail
                      | none =>
                          '$' :: '\x7b' ::
                            (name ++ '\x7d' :: subPlaceholdersAux env fuel tail)
                    else c :: subPlaceholdersAux env fuel rest
                | [] => c :: subPlaceholdersAux env fuel rest
            else c :: subPlaceholdersAux env fuel rest
      else c :: subPlaceholdersAux env fuel rest

/-- `${NAME}` substitution over a whole string. -/
def subPlaceholders (env : List (String × String)) (s : String) : String :=
  ⟨subPlaceholdersAux env s.toList.length s.toList⟩

/-- `resolve_placeholders` of `replay_action_json_with_playwright`: strings
get the `${NAME}` substitution against the process environment, every other
value is returned unchanged. -/
def resolve_placeholders (env : List (String × String)) : JVal → JVal
  | JVal.jstr s => JVal.jstr (subPlaceholders env s)
  | v => v

/-- A call issued to the Playwright driver during replay, with the
already-resolved arguments (`resolved_args.get(...)`, hence `Option`). -/
inductive DriverCall where
  | navigate : Option JVal → DriverCall
  | click : Option JVal → DriverCall
  | fill : Option JVal → Option JVal → DriverCall

/-- Outcome of `replay_action_json_with_playwright`, one constructor per
`return` statement of the loop, carrying exactly the data interpolated into
the returned message: `success` the number of replayed actions; `malformed`
the index and the record; `unknownType` the index and the TYPE VALUE (the
record itself is not part of that message); `failed` (the `except` branch)
the index and the record. -/
inductive ReplayResult where
  | success : Nat → ReplayResult
  | malformed : Nat → JVal → ReplayResult
  | unknownType : Nat → JVal → ReplayResult
  | failed : Nat → JVal → ReplayResult

/-- Per-record classification mirroring the loop body's checks, in source
order: not a dict / missing `type` / missing `args` → malformed;
`args` not a dict (its `.items()` raises, landing in the `except` branch)
→ badArgs; then dispatch on `type` after placeholder resolution, with any
unmatched type value → unknown. -/
inductive RecClass where
  | malformed : RecClass
  | badArgs : RecClass
  | unknown : JVal → RecClass
  | okCall : DriverCall → RecClass

/-- Classify one action record (driver outcomes aside). -/
def recClass (env : List (String × String)) (a : JVal) : RecClass :=
  match a with
  | JVal.jobj fields =>
      match lookupAssoc fields "type", lookupAssoc fields "args" with
      | some tyv, some (JVal.jobj argfields) =>
          let resolved := argfields.map (fun p => (p.1, resolve_placeholders env p.2))
          match tyv with
          | JVal.jstr "navigate" =>
              RecClass.okCall (DriverCall.navigate (lookupAssoc resolved "url"))
          | JVal.jstr "click" =>
              RecClass.okCall (DriverCall.click (lookupAssoc resolved "selector"))
          | JVal.jstr "fill" =>
              RecClass.okCall
                (DriverCall.fill (lookupAssoc resolved "selector")
                  (lookupAssoc resolved "text"))
          | _ => RecClass.unknown tyv
      | some _, some _ => RecClass.badArgs
      | _, _ => RecClass.malformed
  | _ => RecClass.malformed

/-- The replay loop of `replay_action_json_with_playwright`, from index `idx`:
returns the driver calls attempted (in order) and the result.  `driver i`
models whether the awaited driver call of action `i` raises (in which case the
call was still issued to the page before the `except` branch returns). -/
def replayAux (env : List (String × String)) (driver : Nat → Bool) :
    Nat → List JVal → List DriverCall × ReplayResult
  | idx, [] => ([], ReplayResult.success idx)
  | idx, a :: rest =>
      match recClass env a with
      | RecClass.malformed => ([], ReplayResult.malformed idx a)
      | RecClass.badArgs => ([], ReplayResult.failed idx a)
      | RecClass.unknown t => ([], ReplayResult.unknownType idx t)
      | RecClass.okCall c =>
          if driver idx then ([c], ReplayResult.failed idx a)
          else
            let r := replayAux env driver (idx + 1) rest
            (c :: r.1, r.2)

/-- Replay of a loaded action list (the surrounding file handling accepts a
bare array or an `actions` object and is not modelled). -/
def replay_action_json (env : List (String × String)) (driver : Nat → Bool)
    (actions : List JVal) : List DriverCall × ReplayResult :=
  replayAux env driver 0 actions

/-- Does a string still contain a full `${NAME}` placeholder occurrence
(`NAME` nonempty, of word characters)?  Spec-side predicate used to state the
claim that placeholders are never sent to the page. -/
def containsPlaceholderChars : List Char → Bool
  | [] => false
  | '$' :: '\x7b' :: rest =>
      (!(rest.takeWhile isWordChar).isEmpty &&
        (rest.dropWhile isWordChar).head? = some '\x7d') ||
      containsPlaceholderChars rest
  | _ :: rest => containsPlaceholderChars rest

/-- Placeholder detector on an optional JSON argument. -/
def optHasPlaceholder : Option JVal → Bool
  | some (JVal.jstr s) => containsPlaceholderChars s.toList
  | _ => false

/-- Does a driver call carry a literal placeholder in a string argument? -/
def callHasPlaceholder : DriverCall → Bool
  | DriverCall.navigate u => optHasPlaceholder u
  | DriverCall.click s => optHasPlaceholder s
  | DriverCall.fill s t => optHasPlaceholder s || optHasPlaceholder t

/-! ## Support lemmas -/

theorem lookup_removeKey_self {V : Type} (l : List (String × V)) (k : String) :
    lookupAssoc (removeKey l k) k = none := by
  induction l with
  | nil => rfl
  | cons p rest ih =>
      obtain ⟨pk, pv⟩ := p
      by_cases h : pk = k
      · simpa [removeKey, h] using ih
      · simpa [removeKey, lookupAssoc, h] using ih

theorem lookup_removeKey_ne {V : Type} (l : List (String × V)) (k k' : String)
    (h : k' ≠ k) : lookupAssoc (removeKey l k) k' = lookupAssoc l k' := by
  induction l with
  | nil => rfl
  | cons p rest ih =>
      obtain ⟨pk, pv⟩ := p
      by_cases hp : pk = k
      · subst hp
        simp [removeKey, lookupAssoc, Ne.symm h, ih]
      · simp [removeKey, hp, lookupAssoc, ih]

theorem lookup_setKey_some {V : Type} (l : List (String × V)) (k : String)
    (v w : V) (h : lookupAssoc l k = some w) :
    lookupAssoc (setKey l k v) k = some v := by
  induction l with
  | nil => simp [lookupAssoc] at h
  | cons p rest ih =>
      obtain ⟨pk, pv⟩ := p
      by_cases hp : pk = k
      · simp [setKey, hp, lookupAssoc]
      · simp only [lookupAssoc, hp, if_false] at h
        simp [setKey, hp, lookupAssoc, ih h]

theorem lookup_setKey_ne {V : Type} (l : List (String × V)) (k k' : String)
    (v : V) (h : k' ≠ k) :
    lookupAssoc (setKey l k v) k' = lookupAssoc l k' := by
  induction l with
  | nil => rfl
  | cons p rest ih =>
      obtain ⟨pk, pv⟩ := p
      by_cases hp : pk = k
      · subst hp
        simp [setKey, lookupAssoc, Ne.symm h]
      · simp [setKey, hp, lookupAssoc, ih]

theorem lookupAssoc_append {V : Type} (l1 l2 : List (String × V)) (k : String) :
    lookupAssoc (l1 ++ l2) k =
      match lookupAssoc l1 k with
      | some v => some v
      | none => lookupAssoc l2 k := by
  induction l1 with
  | nil => simp [lookupAssoc]
  | cons p rest ih =>
      by_cases hp : p.1 = k
      · simp [lookupAssoc, hp]
      · simpa [lookupAssoc, hp] using ih

theorem lookup_mem_isSome {V : Type} (l : List (String × V)) (p : String × V)
    (h : p ∈ l) : (lookupAssoc l p.1).isSome := by
  induction l with
  | nil => simp at h
  | cons q rest ih =>
      rcases List.mem_cons.mp h with h | h
      · subst h; simp [lookupAssoc]
      · by_cases hq : q.1 = p.1
        · simp [lookupAssoc, hq]
        · simpa [lookupAssoc, hq] using ih h

theorem findStrippedMatch_append (l1 l2 : List (String × String)) (n : String) :
    findStrippedMatch (l1 ++ l2) n =
      match findStrippedMatch l1 n with
      | some p => some p
      | none => findStrippedMatch l2 n := by
  induction l1 with
  | nil => simp [findStrippedMatch]
  | cons p rest ih =>
      obtain ⟨pk, pv⟩ := p
      by_cases hp : pyStrip pv = n
      · simp [findStrippedMatch, hp]
      · simpa [findStrippedMatch, hp] using ih

theorem get_placeholder_combined (cfg : SecretsConfig) (v : String) :
    get_placeholder_for_value cfg v =
      match findStrippedMatch (cfg.runtimeSecrets ++ cfg.envVars) (pyStrip v) with
      | some p => some ("$\x7b" ++ p.1 ++ "\x7d")
      | none => none := by
  rw [get_placeholder_for_value, findStrippedMatch_append]
  cases findStrippedMatch cfg.runtimeSecrets (pyStrip v) with
  | none => cases findStrippedMatch cfg.envVars (pyStrip v) <;> rfl
  | some p => rfl

theorem svcGet_combined (cfg : SecretsConfig) (k : String) :
    svcGet cfg k = lookupAssoc (cfg.runtimeSecrets ++ cfg.envVars) k := by
  rw [svcGet, lookupAssoc_append]
  cases lookupAssoc cfg.runtimeSecrets k <;> rfl

theorem bytesToHex_length (bs : List Nat) :
    (bytesToHex bs).length = 2 * bs.length := by
  induction bs with
  | nil => rfl
  | cons b rest ih => simp [bytesToHex, ih]; ring

theorem quadToBytes_length (q : Nat × Nat × Nat × Nat) :
    (quadToBytes q).length = 16 := by
  obtain ⟨a, b, c, d⟩ := q
  rfl

theorem md5Bytes_length (msg : List Nat) : (md5Bytes msg).length = 16 :=
  quadToBytes_length _

theorem hexDigit_mem (n : Nat) : hexDigit n ∈ hexDigitChars := by
  by_cases h : n < 16
  · interval_cases n <;> decide
  · have hlen : hexDigitChars.length = 16 := rfl
    rw [hexDigit, List.getD_eq_default _ _ (by omega)]
    decide

theorem bytesToHex_mem (bs : List Nat) (c : Char) (h : c ∈ bytesToHex bs) :
    c ∈ hexDigitChars := by
  induction bs with
  | nil => simp [bytesToHex] at h
  | cons b rest ih =>
      simp only [bytesToHex, List.mem_cons] at h
      rcases h with h | h | h
      · rw [h]; exact hexDigit_mem _
      · rw [h]; exact hexDigit_mem _
      · exact ih h

theorem placeholder_toList (n : String) :
    ("$\x7b" ++ n ++ "\x7d").toList = '$' :: '\x7b' :: (n.toList ++ ['\x7d']) := by
  obtain ⟨l⟩ := n
  rfl

theorem inner_of_placeholder (n : String) :
    innerOfPlaceholder ("$\x7b" ++ n ++ "\x7d") = n := by
  obtain ⟨l⟩ := n
  simp [innerOfPlaceholder, placeholder_toList, List.drop, List.dropLast_concat]

theorem pyStartsWith_placeholder (n : String) :
    pyStartsWith ("$\x7b" ++ n ++ "\x7d") "$\x7b" = true := by
  simp [pyStartsWith, placeholder_toList, listIsPre]

theorem pyEndsWith_placeholder (n : String) :
    pyEndsWith ("$\x7b" ++ n ++ "\x7d") "\x7d" = true := by
  simp [pyEndsWith, placeholder_toList, listIsPre, List.reverse_append]

/-! ## C9 — fingerprint stability -/

/-- C9: `element_hash` is a pure function of the canonical fields `(tag,
xpath, text, class, type, id, name, role, aria-label, placeholder)`: two
elements agreeing on them (in particular, two snapshots of the same logical
element, or attribute maps listing the same entries in any insertion order)
get the identical digest, and the digest is a fixed-length (32-character)
lowercase-hexadecimal string.  Repeated calls are the same function
application (the `_element_hash` cache only memoises this value). -/
theorem c9_fingerprint_stable (e1 e2 : DOMElement)
    (htag : e1.tag_name = e2.tag_name) (hxp : e1.xpath = e2.xpath)
    (htx : e1.text = e2.text)
    (hclass : lookupAssoc e1.attributes "class" = lookupAssoc e2.attributes "class")
    (htype : lookupAssoc e1.attributes "type" = lookupAssoc e2.attributes "type")
    (hid : lookupAssoc e1.attributes "id" = lookupAssoc e2.attributes "id")
    (hname : lookupAssoc e1.attributes "name" = lookupAssoc e2.attributes "name")
    (hrole : lookupAssoc e1.attributes "role" = lookupAssoc e2.attributes "role")
    (haria : lookupAssoc e1.attributes "aria-label" = lookupAssoc e2.attributes "aria-label")
    (hph : lookupAssoc e1.attributes "placeholder" = lookupAssoc e2.attributes "placeholder") :
    element_hash e1 = element_hash e2 ∧ (element_hash e1).length = 32 ∧
      ∀ c ∈ (element_hash e1).toList, c ∈ hexDigitChars := by
  have hser : hashDataStr e1 = hashDataStr e2 := by
    simp only [hashDataStr, htag, hxp, htx, hclass, htype, hid, hname, hrole,
      haria, hph]
  refine ⟨by rw [element_hash, element_hash, hser], ?_, ?_⟩
  · show (bytesToHex (md5Bytes (utf8Encode (hashDataStr e1)))).length = 32
    rw [bytesToHex_length, md5Bytes_length]
  · intro c hc
    exact bytesToHex_mem _ _ hc

/-- Concrete element snapshot (a login input) for the C9 witness. -/
def e1W : DOMElement :=
  { tag_name := "input"
    xpath := "/html/body/form/input[1]"
    attributes := [("id", "user-name"), ("class", "input_error form_input"),
                   ("type", "text"), ("placeholder", "Username")]
    is_visible := true
    is_interactive := true
    is_in_viewport := true
    highlight_index := some 1
    text := "" }

/-- The same snapshot with the attribute entries inserted in another order. -/
def e2W : DOMElement :=
  { tag_name := "input"
    xpath := "/html/body/form/input[1]"
    attributes := [("placeholder", "Username"), ("type", "text"),
                   ("id", "user-name"), ("class", "input_error form_input")]
    is_visible := true
    is_interactive := true
    is_in_viewport := false
    highlight_index := none
    text := "" }

/-- Witness for C9 at two concrete snapshots whose attribute maps differ in
insertion order. -/
theorem c9_fingerprint_stable_witness :
    element_hash e1W = element_hash e2W ∧ (element_hash e1W).length = 32 ∧
      ∀ c ∈ (element_hash e1W).toList, c ∈ hexDigitChars :=
  c9_fingerprint_stable e1W e2W rfl rfl rfl (by decide) (by decide) (by decide)
    (by decide) (by decide) (by decide) (by decide)

/-! ## C10 — the resolved hash never reaches the persisted agent record -/

/-- C10: `record_agent_action` appends exactly the processed action, and the
processed action's args contain no `hash` key — whatever the caller supplied
(the resolved hash is local to the function; `args.pop('hash')` runs
unconditionally before the append). -/
theorem c10_agent_record_has_no_hash_key (cfg : SecretsConfig)
    (st : ActionState) (a : ActionRec) :
    (record_agent_action cfg st a).agent_actions
      = st.agent_actions ++ [processAgentAction cfg a]
    ∧ lookupAssoc (processAgentAction cfg a).args "hash" = none := by
  refine ⟨rfl, ?_⟩
  simp only [processAgentAction]
  exact lookup_removeKey_self _ _

/-! ## C1 / C4 — masking on the recording paths -/

theorem maskValueKey_lookup_ne (cfg : SecretsConfig)
    (args : List (String × String)) (key k' : String) (h : k' ≠ key) :
    lookupAssoc (maskValueKey cfg args key) k' = lookupAssoc args k' := by
  cases hv : lookupAssoc args key with
  | none => simp [maskValueKey, hv]
  | some v =>
      cases hph : get_placeholder_for_value cfg v with
      | none => simp [maskValueKey, hv, hph]
      | some ph =>
          simp only [maskValueKey, hv, hph]
          exact lookup_setKey_ne _ _ _ _ h

theorem maskValueKey_lookup_self (cfg : SecretsConfig)
    (args : List (String × String)) (key : String) :
    lookupAssoc (maskValueKey cfg args key) key =
      (lookupAssoc args key).map
        (fun v => (get_placeholder_for_value cfg v).getD v) := by
  rw [maskValueKey]
  cases hv : lookupAssoc args key with
  | none => simp [hv]
  | some v =>
      cases hph : get_placeholder_for_value cfg v with
      | none => simp [hv, hph]
      | some ph => simp [hph, lookup_setKey_some _ _ _ _ hv]

/-- An argument map is "masked into" a stored map when every original value
the secret service recognises appears in the stored map as its placeholder. -/
def maskedStored (cfg : SecretsConfig) (orig stored : List (String × String)) :
    Prop :=
  ∀ k v, lookupAssoc orig k = some v →
    ∀ ph, get_placeholder_for_value cfg v = some ph →
      lookupAssoc stored k = some ph

/-- C1 as claimed: every record appended by either `record_manual_action` or
`record_agent_action` is stored with secret-matching argument values replaced
by their placeholders — on the manual channel as well as the agent channel. -/
def claimC1 : Prop :=
  ∀ (cfg : SecretsConfig) (st : ActionState) (a : ActionRec),
    (∀ rec ∈ (record_manual_action st a).manual_actions,
       rec ∈ st.manual_actions ∨ maskedStored cfg a.args rec.args)
    ∧ (∀ rec ∈ (record_agent_action cfg st a).agent_actions,
       rec ∈ st.agent_actions ∨ maskedStored cfg a.args rec.args)

/-- Secret table used by the concrete counterexamples: `DB_PASS=s3cr3t`. -/
def cfgW : SecretsConfig := ⟨[("DB_PASS", "s3cr3t")], []⟩

/-- A fill action typing the raw secret. -/
def aW : ActionRec := ⟨"fill", [("selector", "#pw"), ("text", "s3cr3t")]⟩

/-- C1 is false on the code: `record_manual_action` appends the action
verbatim, so with secret `DB_PASS=s3cr3t` configured the manual channel
persists `text="s3cr3t"` raw instead of `text="${DB_PASS}"`. -/
theorem c1_counterexample : ¬ claimC1 := by
  intro h
  have hm := (h cfgW ⟨[], [], []⟩ aW).1 aW (by simp [record_manual_action])
  rcases hm with hm | hm
  · simp at hm
  · have := hm "text" "s3cr3t" (by decide) "$\x7bDB_PASS\x7d" (by decide)
    revert this
    decide

/-- C1 amended: only the agent channel masks.  `record_manual_action` appends
its action verbatim (no masking step), while `record_agent_action` appends
the processed action, in which any `text`/`value` argument of a `fill`/`type`
action that the secret service recognises has been replaced by its
placeholder. -/
theorem c1_amended (cfg : SecretsConfig) (st : ActionState) (a b : ActionRec)
    (hb : b.type = "fill" ∨ b.type = "type") :
    (record_manual_action st a).manual_actions = st.manual_actions ++ [a]
    ∧ (record_agent_action cfg st b).agent_actions
        = st.agent_actions ++ [processAgentAction cfg b]
    ∧ ∀ k, (k = "text" ∨ k = "value") →
        ∀ v, lookupAssoc b.args k = some v →
          ∀ ph, get_placeholder_for_value cfg v = some ph →
            lookupAssoc (processAgentAction cfg b).args k = some ph := by
  refine ⟨rfl, rfl, ?_⟩
  intro k hk v hv ph hph
  have hkhash : k ≠ "hash" := by rcases hk with h | h <;> subst h <;> decide
  simp only [processAgentAction, if_pos hb]
  rw [lookup_removeKey_ne _ _ _ hkhash, maskSensitiveArgs]
  rcases hk with hk | hk <;> subst hk
  · rw [maskValueKey_lookup_ne _ _ _ _ (by decide), maskValueKey_lookup_self,
      hv]
    simp [hph]
  · have h0 : lookupAssoc (maskValueKey cfg b.args "text") "value" = some v :=
      (maskValueKey_lookup_ne _ _ _ _ (by decide)).trans hv
    rw [maskValueKey_lookup_self, h0]
    simp [hph]

/-- Witness for the amended C1: the manual channel stores `aW` verbatim, the
agent channel stores the placeholder. -/
theorem c1_amended_witness :
    (record_manual_action ⟨[], [], []⟩ aW).manual_actions = [aW]
    ∧ lookupAssoc (processAgentAction cfgW aW).args "text"
        = some "$\x7bDB_PASS\x7d" :=
  ⟨(c1_amended cfgW ⟨[], [], []⟩ aW aW (Or.inl rfl)).1,
   (c1_amended cfgW ⟨[], [], []⟩ aW aW (Or.inl rfl)).2.2 "text" (Or.inl rfl)
     "s3cr3t" (by decide) "$\x7bDB_PASS\x7d" (by decide)⟩

/-- First secret entry whose value equals the given string LITERALLY, the
matching notion the claim asserts. -/
def findLiteralMatch : List (String × String) → String → Option String
  | [], _ => none
  | (k, val) :: rest, v => if val = v then some k else findLiteralMatch rest v

/-- C4 as claimed: for `fill`/`type` actions, EVERY string argument is
checked against the secret table by literal value match and stored as the
placeholder exactly when it matches. -/
def claimC4 : Prop :=
  ∀ (cfg : SecretsConfig) (a : ActionRec),
    (a.type = "fill" ∨ a.type = "type") →
    ∀ k v, lookupAssoc a.args k = some v →
      lookupAssoc (processAgentAction cfg a).args k =
        some (match findLiteralMatch (cfg.runtimeSecrets ++ cfg.envVars) v with
              | some name => "$\x7b" ++ name ++ "\x7d"
              | none => v)

/-- C4 is false on the code: only the `text` and `value` keys are checked.
With `DB_PASS=s3cr3t` configured, a fill action whose `selector` argument is
the literal secret is stored verbatim, not replaced. -/
theorem c4_counterexample : ¬ claimC4 := by
  intro h
  have := h cfgW ⟨"fill", [("selector", "s3cr3t")]⟩ (Or.inl rfl) "selector"
    "s3cr3t" (by decide)
  revert this
  decide

/-- C4 amended: for `fill`/`type` actions exactly the arguments under the
keys `text` and `value` are checked (by whitespace-stripped literal match,
runtime secrets before environment) and replaced by the placeholder on a
match, kept verbatim otherwise; every other argument key except the removed
`hash` is stored untouched. -/
theorem c4_amended (cfg : SecretsConfig) (a : ActionRec)
    (h : a.type = "fill" ∨ a.type = "type") :
    (∀ k, (k = "text" ∨ k = "value") →
       lookupAssoc (processAgentAction cfg a).args k
         = (lookupAssoc a.args k).map
             (fun v => (get_placeholder_for_value cfg v).getD v))
    ∧ ∀ k, k ≠ "text" → k ≠ "value" → k ≠ "hash" →
        lookupAssoc (processAgentAction cfg a).args k = lookupAssoc a.args k := by
  constructor
  · intro k hk
    have hkhash : k ≠ "hash" := by rcases hk with h' | h' <;> subst h' <;> decide
    simp only [processAgentAction, if_pos h]
    rw [lookup_removeKey_ne _ _ _ hkhash, maskSensitiveArgs]
    rcases hk with hk | hk <;> subst hk
    · rw [maskValueKey_lookup_ne _ _ _ _ (by decide), maskValueKey_lookup_self]
    · rw [maskValueKey_lookup_self, maskValueKey_lookup_ne _ _ _ _ (by decide)]
  · intro k h1 h2 h3
    simp only [processAgentAction, if_pos h]
    rw [lookup_removeKey_ne _ _ _ h3, maskSensitiveArgs,
      maskValueKey_lookup_ne _ _ _ _ h2, maskValueKey_lookup_ne _ _ _ _ h1]

/-- A type action carrying a secret `text` and a non-secret `selector`. -/
def bW4 : ActionRec := ⟨"type", [("selector", "#pw"), ("text", "s3cr3t")]⟩

/-- Witness for the amended C4. -/
theorem c4_amended_witness :
    lookupAssoc (processAgentAction cfgW bW4).args "text"
      = (lookupAssoc bW4.args "text").map
          (fun v => (get_placeholder_for_value cfgW v).getD v)
    ∧ lookupAssoc (processAgentAction cfgW bW4).args "selector"
        = lookupAssoc bW4.args "selector" :=
  ⟨(c4_amended cfgW bW4 (Or.inr rfl)).1 "text" (Or.inl rfl),
   (c4_amended cfgW bW4 (Or.inr rfl)).2 "selector" (by decide) (by decide)
     (by decide)⟩

/-! ## C8 — mask/resolve round trip -/

/-- C8 as claimed: a value that exactly equals the configured secret named
`N` masks to `${N}`, resolving `${N}` against the same table returns the
value, and values matching no secret are left alone. -/
def claimC8 : Prop :=
  ∀ (cfg : SecretsConfig) (N v : String),
    lookupAssoc (cfg.runtimeSecrets ++ cfg.envVars) N = some v →
      get_placeholder_for_value cfg v = some ("$\x7b" ++ N ++ "\x7d")
      ∧ resolve_secret_placeholders cfg ("$\x7b" ++ N ++ "\x7d") = v
      ∧ ∀ w,
          findStrippedMatch (cfg.runtimeSecrets ++ cfg.envVars) (pyStrip w)
            = none →
          get_placeholder_for_value cfg w = none

/-- C8 is false on the code when two secrets store the same value: with
secrets `A=x, B=x`, the value `x` exactly equals the secret named `B`, yet
masking returns `${A}` (the first stripped-value match wins), not `${B}`. -/
theorem c8_counterexample : ¬ claimC8 := by
  intro h
  have := (h ⟨[("A", "x"), ("B", "x")], []⟩ "B" "x" (by decide)).1
  revert this
  decide

/-- C8 amended: masking returns `${N}` for the FIRST entry (runtime secrets
before environment) whose stripped value matches, and the round trip restores
the original value whenever that first match is the exact entry `(N, v)`
looked up by `N` — in particular whenever secret values are distinct; a value
with no stripped match is left unmasked. -/
theorem c8_amended (cfg : SecretsConfig) (N v : String)
    (h1 : findStrippedMatch (cfg.runtimeSecrets ++ cfg.envVars) (pyStrip v)
            = some (N, v))
    (h2 : lookupAssoc (cfg.runtimeSecrets ++ cfg.envVars) N = some v) :
    get_placeholder_for_value cfg v = some ("$\x7b" ++ N ++ "\x7d")
    ∧ resolve_secret_placeholders cfg ("$\x7b" ++ N ++ "\x7d") = v
    ∧ ∀ w,
        findStrippedMatch (cfg.runtimeSecrets ++ cfg.envVars) (pyStrip w)
          = none →
        get_placeholder_for_value cfg w = none := by
  refine ⟨?_, ?_, ?_⟩
  · rw [get_placeholder_combined, h1]
  · have hget : svcGet cfg N = some v := by rw [svcGet_combined]; exact h2
    simp [resolve_secret_placeholders, pyStartsWith_placeholder,
      pyEndsWith_placeholder, inner_of_placeholder, hget]
  · intro w hw
    rw [get_placeholder_combined, hw]

/-- Witness for the amended C8 with `DB_PASS=s3cr3t`. -/
theorem c8_amended_witness :
    get_placeholder_for_value cfgW "s3cr3t" = some "$\x7bDB_PASS\x7d"
    ∧ resolve_secret_placeholders cfgW "$\x7bDB_PASS\x7d" = "s3cr3t" := by
  have h := c8_amended cfgW "DB_PASS" "s3cr3t" (by decide) (by decide)
  exact ⟨h.1, h.2.1⟩

/-! ## C2 — history-map clearing on navigation -/

theorem scanStepEffective_preserves (st : DOMState) (d : ElemData) :
    (scanStepEffective st d).element_history_map = st.element_history_map
    ∧ (scanStepEffective st d).last_page_url = st.last_page_url := by
  by_cases h : d.isInteractive <;> simp [scanStepEffective, h]

theorem scanFoldEffective_preserves (ds : List ElemData) :
    ∀ st : DOMState,
      ((ds.foldl scanStepEffective st).element_history_map
         = st.element_history_map
       ∧ (ds.foldl scanStepEffective st).last_page_url = st.last_page_url) := by
  induction ds with
  | nil => intro st; exact ⟨rfl, rfl⟩
  | cons d rest ih =>
      intro st
      rw [List.foldl_cons]
      refine ⟨((ih _).1).trans (scanStepEffective_preserves st d).1,
        ((ih _).2).trans (scanStepEffective_preserves st d).2⟩

/-- One interactive element observed on page A. -/
def dAW : ElemData :=
  { tagName := "A"
    text := "Example link"
    xpath := "/html/body/a"
    attributes := [("id", "link-a")]
    isInteractive := true
    isVisible := true
    isInViewport := true
    highlightIndex := some 0 }

/-- One interactive element observed on page B. -/
def dBW : ElemData :=
  { tagName := "BUTTON"
    text := " Submit "
    xpath := "/html/body/button"
    attributes := [("id", "submit")]
    isInteractive := true
    isVisible := true
    isInViewport := true
    highlightIndex := some 0 }

/-- The `DOMElement` the first (shadowed) scan definition would store for
`dBW`. -/
def elemBW : DOMElement :=
  { elementOfData dBW with attributes := enrichAttributes dBW.attributes }

/-- C2 evaluated on the code: the effective `get_interactive_elements` (the
second of the two same-named definitions, the one Python binds) leaves the
element history map and the recorded URL of ANY state untouched, so after
scanning page A, navigating to page B and scanning again the history map does
not hold page B's elements (it is still the untouched initial `[]`); the
shadowed first definition would have produced exactly page B's element, as
the spec describes. -/
theorem c2_history_clear_divergence :
    (∀ (st : DOMState) (tree : Option (List ElemData)),
       (get_interactive_elements st tree).1.element_history_map
         = st.element_history_map
       ∧ (get_interactive_elements st tree).1.last_page_url
         = st.last_page_url)
    ∧ ((get_interactive_elements
          ((get_interactive_elements initialDOMState (some [dAW])).1)
          (some [dBW])).1.element_history_map = [])
    ∧ ((get_interactive_elements_first
          ((get_interactive_elements_first initialDOMState
             "https://a.example/" (some [dAW])).1)
          "https://b.example/" (some [dBW])).1.element_history_map
        = [(element_hash elemBW, elemBW)]) := by
  refine ⟨?_, ?_, ?_⟩
  · intro st tree
    cases tree with
    | none => exact ⟨rfl, rfl⟩
    | some ds =>
        exact ⟨(scanFoldEffective_preserves ds _).1,
          (scanFoldEffective_preserves ds _).2⟩
  · rfl
  · rfl

/-! ## C7 — rescan-and-retry policy on fingerprint miss -/

/-- C7 as claimed: for BOTH `find_element_by_hash` and
`click_element_by_hash`, a lookup miss in the history map triggers exactly
one rescan (followed by one retry). -/
def claimC7 : Prop :=
  ∀ (st : DOMState) (tree : Option (List ElemData)) (ok : Bool)
    (harg : String),
    lookupAssoc st.element_history_map (stripHashMarks harg) = none →
      (find_element_by_hash st tree harg).2.2 = 1
      ∧ (click_element_by_hash st tree ok harg).2.2 = 1

/-- A state whose history map is nonempty but does not contain `bbb`. -/
def stMiss : DOMState :=
  { element_history_map := [("aaa", e1W)]
    last_page_url := some "https://a.example/"
    interactive_elements := []
    element_map := [] }

/-- C7 is false on the code: with a NONEMPTY history map missing the
fingerprint, `find_element_by_hash` performs no rescan at all (it rescans
only when the map is empty) and returns `None` without retrying. -/
theorem c7_counterexample : ¬ claimC7 := by
  intro h
  have := (h stMiss none true "bbb" (by decide)).1
  revert this
  decide

/-- C7 amended: `click_element_by_hash` implements the claimed policy — on a
miss it rescans exactly once, retries the lookup once, and returns `False` if
the element is still missing — while `find_element_by_hash` rescans only when
the history map is empty (once, before its single lookup) and never rescans
or retries on a miss against a nonempty map. -/
theorem c7_amended (st : DOMState) (tree : Option (List ElemData)) (ok : Bool)
    (harg : String) :
    (st.element_history_map ≠ [] →
       find_element_by_hash st tree harg
         = (st, lookupAssoc st.element_history_map (stripHashMarks harg), 0))
    ∧ (st.element_history_map = [] →
       (find_element_by_hash st tree harg).2.2 = 1)
    ∧ (∀ e, lookupAssoc st.element_history_map (stripHashMarks harg) = some e →
       click_element_by_hash st tree ok harg = (st, ok, 0))
    ∧ (lookupAssoc st.element_history_map (stripHashMarks harg) = none →
       (click_element_by_hash st tree ok harg).2.2 = 1
       ∧ (lookupAssoc (get_interactive_elements st tree).1.element_history_map
            (stripHashMarks harg) = none →
          (click_element_by_hash st tree ok harg).2.1 = false)) := by
  refine ⟨?_, ?_, ?_, ?_⟩
  · intro h
    cases hm : st.element_history_map with
    | nil => exact absurd hm h
    | cons p rest => simp [find_element_by_hash, hm]
  · intro h
    simp [find_element_by_hash, h]
  · intro e he
    simp [click_element_by_hash, he]
  · intro hn
    constructor
    · simp only [click_element_by_hash, hn]
      cases h2 : lookupAssoc
          (get_interactive_elements st tree).1.element_history_map
          (stripHashMarks harg) <;> simp
    · intro h2
      simp [click_element_by_hash, hn, h2]

/-- Witness for the amended C7: a miss against the nonempty `stMiss` does no
rescan, a hit clicks with no rescan. -/
theorem c7_amended_witness :
    find_element_by_hash stMiss none "bbb" = (stMiss, none, 0)
    ∧ click_element_by_hash stMiss none true "#aaa" = (stMiss, true, 0) :=
  ⟨((c7_amended stMiss none true "bbb").1 (by decide)).trans (by decide),
   (c7_amended stMiss none true "#aaa").2.2.1 e1W (by decide)⟩

/-! ## C5 — unresolved placeholders at replay time -/

theorem subPlaceholdersAux_empty :
    ∀ (fuel : Nat) (cs : List Char), cs.length ≤ fuel →
      subPlaceholdersAux [] fuel cs = cs := by
  intro fuel
  induction fuel with
  | zero => intro cs _; rfl
  | succ fuel ih =>
      intro cs h
      cases cs with
      | nil => rfl
      | cons c rest =>
          have hrest : rest.length ≤ fuel := by simp at h; omega
          rw [subPlaceholdersAux.eq_def]
          dsimp only
          by_cases hc : c = '$'
          · rw [if_pos hc]
            cases rest with
            | nil => rw [ih [] (by simp)]
            | cons c2 rest2 =>
                dsimp only
                by_cases hc2 : c2 = '\x7b'
                · rw [if_pos hc2]
                  by_cases hn : rest2.takeWhile isWordChar = []
                  · rw [if_pos hn, ih (c2 :: rest2) hrest]
                  · rw [if_neg hn]
                    cases hr : rest2.dropWhile isWordChar with
                    | nil => rw [ih (c2 :: rest2) hrest]
                    | cons c3 tail =>
                        dsimp only
                        by_cases hc3 : c3 = '\x7d'
                        · rw [if_pos hc3]
                          have hsplit :
                              rest2.takeWhile isWordChar ++ c3 :: tail = rest2 := by
                            conv_rhs =>
                              rw [← List.takeWhile_append_dropWhile
                                (p := isWordChar) (l := rest2)]
                            rw [hr]
                          have htail : tail.length ≤ fuel := by
                            have := congrArg List.length hsplit
                            simp only [List.length_append, List.length_cons] at this
                            simp only [List.length_cons] at h hrest
                            omega
                          simp only [lookupAssoc, ih tail htail]
                          subst hc hc2 hc3
                          rw [hsplit]
                        · rw [if_neg hc3, ih (c2 :: rest2) hrest]
                · rw [if_neg hc2, ih (c2 :: rest2) hrest]
          · rw [if_neg hc, ih rest hrest]

/-- With no matching environment entries, placeholder substitution is the
identity: the literal `${NAME}` text stays in the argument. -/
theorem subPlaceholders_empty (s : String) : subPlaceholders [] s = s := by
  rw [subPlaceholders, subPlaceholdersAux_empty s.toList.length s.toList le_rfl]
  rfl

/-- A recorded fill action whose `text` still holds a placeholder with no
matching environment variable. -/
def fillRecW : JVal :=
  JVal.jobj [("type", JVal.jstr "fill"),
             ("args", JVal.jobj [("selector", JVal.jstr "#pw"),
                                 ("text", JVal.jstr "$\x7bDB_PASS\x7d")])]

/-- The driver call the replay of `fillRecW` issues. -/
def fillCallW : DriverCall :=
  DriverCall.fill (some (JVal.jstr "#pw")) (some (JVal.jstr "$\x7bDB_PASS\x7d"))

/-- C5 as claimed: an action about to execute with a literal `${...}` still
present is a hard failure — no driver call ever carries a placeholder, and a
replay containing such an action never succeeds. -/
def claimC5 : Prop :=
  ∀ (env : List (String × String)) (driver : Nat → Bool) (actions : List JVal),
    (∀ c ∈ (replay_action_json env driver actions).1,
       callHasPlaceholder c = false)
    ∧ (∀ i a dc, actions.get? i = some a →
         recClass env a = RecClass.okCall dc →
         callHasPlaceholder dc = true →
         ∀ n, (replay_action_json env driver actions).2 ≠ ReplayResult.success n)

/-- C5 is false on the code: with an empty environment, replaying `fillRecW`
issues `page.fill` with the literal text `${DB_PASS}` and reports success —
the unresolved placeholder is sent to the page, not treated as a failure. -/
theorem c5_counterexample : ¬ claimC5 := by
  intro h
  have hmem : fillCallW ∈ (replay_action_json [] (fun _ => false) [fillRecW]).1 := by
    have he : (replay_action_json [] (fun _ => false) [fillRecW]).1 = [fillCallW] :=
      rfl
    rw [he]
    exact List.mem_singleton_self _
  have := (h [] (fun _ => false) [fillRecW]).1 fillCallW hmem
  revert this
  decide

/-- C5 amended: a `${NAME}` with no matching environment variable is left in
place (with an empty environment the substitution is the identity) and the
action executes with the literal placeholder string; the replay reports
success rather than aborting. -/
theorem c5_amended (s : String) :
    subPlaceholders [] s = s
    ∧ replay_action_json [] (fun _ => false) [fillRecW]
        = ([fillCallW], ReplayResult.success 1)
    ∧ callHasPlaceholder fillCallW = true :=
  ⟨subPlaceholders_empty s, rfl, rfl⟩

/-! ## C6 — abort-at-first-failure semantics of replay -/

/-- Does the record at position `i` replay cleanly: it classifies to a driver
call and that call does not raise. -/
def recOkB (env : List (String × String)) (driver : Nat → Bool) (i : Nat)
    (a : JVal) : Bool :=
  (match recClass env a with
   | RecClass.okCall _ => true
   | _ => false) && !(driver i)

/-- The driver call of a well-formed record (dummy otherwise; used only under
a well-formedness hypothesis). -/
def forceCall (env : List (String × String)) (a : JVal) : DriverCall :=
  match recClass env a with
  | RecClass.okCall c => c
  | _ => DriverCall.navigate none

/-- The calls the failing record itself got to issue before failing. -/
def attemptedCall (env : List (String × String)) (a : JVal) : List DriverCall :=
  match recClass env a with
  | RecClass.okCall c => [c]
  | _ => []

/-- The result the loop returns for a failure at index `j` on record `a`,
by the record's classification. -/
def resultAt (env : List (String × String)) (j : Nat) (a : JVal)
    (r : ReplayResult) : Prop :=
  match recClass env a with
  | RecClass.malformed => r = ReplayResult.malformed j a
  | RecClass.badArgs => r = ReplayResult.failed j a
  | RecClass.unknown t => r = ReplayResult.unknownType j t
  | RecClass.okCall _ => r = ReplayResult.failed j a

/-- C6 as claimed: replay stops at the first failing record, treats all three
failure kinds identically, and reports the 0-based index TOGETHER WITH THE
RECORD (so the result must be one of the two constructors carrying the
record), executing no later record. -/
def claimC6 : Prop :=
  ∀ (env : List (String × String)) (driver : Nat → Bool) (actions : List JVal)
    (j : Nat),
    j < actions.length →
    recOkB env driver j (actions.getD j JVal.jnull) = false →
    (∀ i, i < j → recOkB env driver i (actions.getD i JVal.jnull) = true) →
    ((replay_action_json env driver actions).2
        = ReplayResult.malformed j (actions.getD j JVal.jnull)
     ∨ (replay_action_json env driver actions).2
        = ReplayResult.failed j (actions.getD j JVal.jnull))
    ∧ (replay_action_json env driver actions).1
        = (actions.take j).map (forceCall env)
          ++ (if driver j then attemptedCall env (actions.getD j JVal.jnull)
              else [])

/-- A record with an unrecognised action type. -/
def hoverRecW : JVal :=
  JVal.jobj [("type", JVal.jstr "hover"), ("args", JVal.jobj [])]

/-- C6 is false on the code in the reporting clause: an unrecognised type
aborts with the index and the TYPE VALUE only — the returned message
(`Error: Unknown action type '...' at index ...`) does not carry the record,
unlike the malformed-record and driver-failure messages. -/
theorem c6_counterexample : ¬ claimC6 := by
  intro h
  have := (h [] (fun _ => false) [hoverRecW] 0 (by decide) (by decide)
    (fun i hi => absurd hi (by omega))).1
  rcases this with h1 | h1
  · exact ReplayResult.noConfusion h1
  · exact ReplayResult.noConfusion h1

theorem replayAux_spec (env : List (String × String)) (driver : Nat → Bool) :
    ∀ (actions : List JVal) (idx : Nat),
      ((∀ i, i < actions.length →
          recOkB env driver (idx + i) (actions.getD i JVal.jnull) = true) →
        (replayAux env driver idx actions).2
          = ReplayResult.success (idx + actions.length)
        ∧ (replayAux env driver idx actions).1 = actions.map (forceCall env))
      ∧ (∀ j, j < actions.length →
          recOkB env driver (idx + j) (actions.getD j JVal.jnull) = false →
          (∀ i, i < j →
             recOkB env driver (idx + i) (actions.getD i JVal.jnull) = true) →
          resultAt env (idx + j) (actions.getD j JVal.jnull)
            (replayAux env driver idx actions).2
          ∧ (replayAux env driver idx actions).1
              = (actions.take j).map (forceCall env)
                ++ (if driver (idx + j) then
                      attemptedCall env (actions.getD j JVal.jnull)
                    else [])) := by
  intro actions
  induction actions with
  | nil =>
      intro idx
      constructor
      · intro _
        exact ⟨by simp [replayAux], rfl⟩
      · intro j hj
        simp at hj
  | cons a rest ih =>
      intro idx
      have harith : ∀ m : Nat, idx + (m + 1) = (idx + 1) + m := fun m => by omega
      cases hc : recClass env a with
      | okCall c =>
          by_cases hd : driver idx
          · constructor
            · intro hall
              have h0 := hall 0 (by simp)
              simp [recOkB, hc, hd] at h0
            · intro j hj hbad hpre
              cases j with
              | zero =>
                  refine ⟨?_, ?_⟩
                  · simp [replayAux, hc, hd, resultAt]
                  · simp [replayAux, hc, hd, attemptedCall]
              | succ k =>
                  have h0 := hpre 0 (by omega)
                  simp [recOkB, hc, hd] at h0
          · have hstep : replayAux env driver idx (a :: rest)
                = (c :: (replayAux env driver (idx + 1) rest).1,
                   (replayAux env driver (idx + 1) rest).2) := by
              simp [replayAux, hc, hd]
            constructor
            · intro hall
              have hrest : ∀ i, i < rest.length →
                  recOkB env driver ((idx + 1) + i) (rest.getD i JVal.jnull)
                    = true := by
                intro i hi
                have h1 := hall (i + 1) (by simp; omega)
                simp only [List.getD_cons_succ] at h1
                rw [harith i] at h1
                exact h1
              obtain ⟨hres, hcalls⟩ := (ih (idx + 1)).1 hrest
              rw [hstep]
              refine ⟨?_, ?_⟩
              · simp only [hres]
                congr 1
                simp
                omega
              · simp [hcalls, forceCall, hc]
            · intro j hj hbad hpre
              cases j with
              | zero =>
                  have h0 : recOkB env driver (idx + 0) ((a :: rest).getD 0 JVal.jnull)
                      = true := by simp [recOkB, hc, hd]
                  rw [hbad] at h0
                  exact Bool.noConfusion h0
              | succ k =>
                  have hbad' : recOkB env driver ((idx + 1) + k)
                      (rest.getD k JVal.jnull) = false := by
                    simp only [List.getD_cons_succ] at hbad
                    rw [harith k] at hbad
                    exact hbad
                  have hpre' : ∀ i, i < k →
                      recOkB env driver ((idx + 1) + i) (rest.getD i JVal.jnull)
                        = true := by
                    intro i hi
                    have h1 := hpre (i + 1) (by omega)
                    simp only [List.getD_cons_succ] at h1
                    rw [harith i] at h1
                    exact h1
                  obtain ⟨hres, hcalls⟩ := (ih (idx + 1)).2 k
                    (by simp at hj; omega) hbad' hpre'
                  rw [hstep]
                  refine ⟨?_, ?_⟩
                  · simp only [List.getD_cons_succ]
                    rw [harith k]
                    exact hres
                  · simp only [List.getD_cons_succ, List.take_succ_cons,
                      List.map_cons, List.cons_append]
                    rw [harith k]
                    simp [hcalls, forceCall, hc]
      | malformed =>
          constructor
          · intro hall
            have h0 := hall 0 (by simp)
            simp [recOkB, hc] at h0
          · intro j hj hbad hpre
            cases j with
            | zero =>
                refine ⟨?_, ?_⟩
                · simp [replayAux, hc, resultAt]
                · simp [replayAux, hc, attemptedCall]
            | succ k =>
                have h0 := hpre 0 (by omega)
                simp [recOkB, hc] at h0
      | badArgs =>
          constructor
          · intro hall
            have h0 := hall 0 (by simp)
            simp [recOkB, hc] at h0
          · intro j hj hbad hpre
            cases j with
            | zero =>
                refine ⟨?_, ?_⟩
                · simp [replayAux, hc, resultAt]
                · simp [replayAux, hc, attemptedCall]
            | succ k =>
                have h0 := hpre 0 (by omega)
                simp [recOkB, hc] at h0
      | unknown t =>
          constructor
          · intro hall
            have h0 := hall 0 (by simp)
            simp [recOkB, hc] at h0
          · intro j hj hbad hpre
            cases j with
            | zero =>
                refine ⟨?_, ?_⟩
                · simp [replayAux, hc, resultAt]
                · simp [replayAux, hc, attemptedCall]
            | succ k =>
                have h0 := hpre 0 (by omega)
                simp [recOkB, hc] at h0

/-- C6 amended: replay executes records strictly in order, stopping at the
first failing record and executing no later one; all three failure kinds
abort with the 0-based index, but only malformed records and driver failures
are reported together with the record — an unrecognised type is reported via
its type value and index alone (`resultAt` spells out which constructor each
classification yields). -/
theorem c6_amended (env : List (String × String)) (driver : Nat → Bool)
    (actions : List JVal) :
    ((∀ i, i < actions.length →
        recOkB env driver i (actions.getD i JVal.jnull) = true) →
      (replay_action_json env driver actions).2
        = ReplayResult.success actions.length
      ∧ (replay_action_json env driver actions).1
          = actions.map (forceCall env))
    ∧ (∀ j, j < actions.length →
        recOkB env driver j (actions.getD j JVal.jnull) = false →
        (∀ i, i < j → recOkB env driver i (actions.getD i JVal.jnull) = true) →
        resultAt env j (actions.getD j JVal.jnull)
          (replay_action_json env driver actions).2
        ∧ (replay_action_json env driver actions).1
            = (actions.take j).map (forceCall env)
              ++ (if driver j then
                    attemptedCall env (actions.getD j JVal.jnull)
                  else [])) := by
  have h := replayAux_spec env driver actions 0
  constructor
  · intro hall
    obtain ⟨h1, h2⟩ := h.1 (by intro i hi; simpa using hall i hi)
    exact ⟨by simpa using h1, h2⟩
  · intro j hj hbad hpre
    obtain ⟨h1, h2⟩ := h.2 j hj (by simpa using hbad)
      (by intro i hi; simpa using hpre i hi)
    exact ⟨by simpa using h1, by simpa using h2⟩

/-- A well-formed navigate record. -/
def navRecW : JVal :=
  JVal.jobj [("type", JVal.jstr "navigate"),
             ("args", JVal.jobj [("url", JVal.jstr "https://a.example/")])]

/-- Witness for the amended C6: a good navigate followed by an unknown type
aborts at index 1 having executed only the navigate. -/
theorem c6_amended_witness :
    resultAt [] 1 ([navRecW, hoverRecW].getD 1 JVal.jnull)
      (replay_action_json [] (fun _ => false) [navRecW, hoverRecW]).2
    ∧ (replay_action_json [] (fun _ => false) [navRecW, hoverRecW]).1
        = ([navRecW, hoverRecW].take 1).map (forceCall [])
          ++ (if (fun _ : Nat => false) 1 then
                attemptedCall [] ([navRecW, hoverRecW].getD 1 JVal.jnull)
              else []) :=
  (c6_amended [] (fun _ => false) [navRecW, hoverRecW]).2 1 (by decide)
    (by decide) (fun i hi => by interval_cases i; decide)

/-! ## C3 — real-time merge refinement -/

/-- The keyed manual entries in channel order (what the `manual_map` dict
holds when manual keys are pairwise distinct). -/
def keyedEntries : List ActionRec → List (String × ActionRec)
  | [] => []
  | a :: rest =>
      match truthyKey a with
      | some k => (k, a) :: keyedEntries rest
      | none => keyedEntries rest

/-- Declarative merged list, written from the claim: walk the agent channel
in order replacing each record whose merge key also keys a manual record by
that manual record, then append every keyed manual record whose key no agent
record carries. -/
def mergeSpecC3 (agent manual : List ActionRec) : List ActionRec :=
  let keyed := manual.filter (fun m => (truthyKey m).isSome)
  agent.map (fun a =>
    match compute_action_key a with
    | some k =>
        match keyed.find? (fun m => truthyKey m == some k) with
        | some m => m
        | none => a
    | none => a)
  ++ keyed.filter (fun m =>
       match truthyKey m with
       | some k => !(agent.any (fun a => compute_action_key a == some k))
       | none => false)

/-- The manual channel's (Python-truthy) merge keys are pairwise distinct. -/
def distinctTruthyKeys (manual : List ActionRec) : Prop :=
  (manual.filterMap truthyKey).Nodup

theorem keyedEntries_keys (manual : List ActionRec) :
    (keyedEntries manual).map Prod.fst = manual.filterMap truthyKey := by
  induction manual with
  | nil => rfl
  | cons a rest ih =>
      cases ht : truthyKey a with
      | none => simp [keyedEntries, ht, List.filterMap_cons, ih]
      | some k => simp [keyedEntries, ht, List.filterMap_cons, ih]

theorem buildManualMapAux_eq (manual : List ActionRec) :
    ∀ m : List (String × ActionRec),
      (∀ k ∈ manual.filterMap truthyKey, lookupAssoc m k = none) →
      (manual.filterMap truthyKey).Nodup →
      buildManualMapAux m manual = m ++ keyedEntries manual := by
  induction manual with
  | nil => intro m _ _; simp [buildManualMapAux, keyedEntries]
  | cons a rest ih =>
      intro m hfresh hnd
      cases ht : truthyKey a with
      | none =>
          simp only [buildManualMapAux, ht]
          simp only [List.filterMap_cons, ht] at hfresh hnd
          rw [ih m hfresh hnd]
          simp [keyedEntries, ht]
      | some k =>
          simp only [buildManualMapAux, ht]
          simp only [List.filterMap_cons, ht] at hfresh hnd
          have hmk : lookupAssoc m k = none := hfresh k (by simp)
          have hins : dictInsert m k a = m ++ [(k, a)] := by
            simp [dictInsert, hasKey, hmk]
          rw [hins]
          have hk_not : k ∉ rest.filterMap truthyKey := by
            simpa using (List.nodup_cons.mp hnd).1
          have hfresh' : ∀ k' ∈ rest.filterMap truthyKey,
              lookupAssoc (m ++ [(k, a)]) k' = none := by
            intro k' hk'
            rw [lookupAssoc_append]
            rw [hfresh k' (by simp [hk'])]
            have : k ≠ k' := fun e => hk_not (e ▸ hk')
            simp [lookupAssoc, this]
          rw [ih (m ++ [(k, a)]) hfresh' (List.nodup_cons.mp hnd).2]
          simp [keyedEntries, ht]

theorem buildManualMap_eq (manual : List ActionRec)
    (h : distinctTruthyKeys manual) :
    buildManualMap manual = keyedEntries manual := by
  rw [buildManualMap, buildManualMapAux_eq manual [] (fun _ _ => rfl) h]
  rfl

theorem lookup_keyedEntries (manual : List ActionRec) (k : String) :
    lookupAssoc (keyedEntries manual) k
      = manual.find? (fun m => truthyKey m == some k) := by
  induction manual with
  | nil => rfl
  | cons a rest ih =>
      cases ht : truthyKey a with
      | none => simp [keyedEntries, ht, List.find?_cons, ih]
      | some k' =>
          by_cases hk : k' = k
          · subst hk
            simp [keyedEntries, ht, List.find?_cons, lookupAssoc]
          · simp [keyedEntries, ht, List.find?_cons, lookupAssoc, hk, ih]

theorem find?_filter_truthy (manual : List ActionRec) (k : String) :
    (manual.filter (fun m => (truthyKey m).isSome)).find?
        (fun m => truthyKey m == some k)
      = manual.find? (fun m => truthyKey m == some k) := by
  induction manual with
  | nil => rfl
  | cons a rest ih =>
      cases ht : truthyKey a with
      | none => simp [List.filter_cons, ht, List.find?_cons, ih]
      | some k' =>
          by_cases hk : k' = k
          · subst hk
            simp [List.filter_cons, ht, List.find?_cons]
          · simp [List.filter_cons, ht, List.find?_cons, hk, ih]

theorem mergeWalk_fst (mmap : List (String × ActionRec)) :
    ∀ (agent : List ActionRec) (used : List String),
      (mergeWalk mmap agent used).1
        = agent.map (fun a =>
            match compute_action_key a with
            | some k => (lookupAssoc mmap k).getD a
            | none => a) := by
  intro agent
  induction agent with
  | nil => intro used; rfl
  | cons a rest ih =>
      intro used
      cases hk : compute_action_key a with
      | none => simp [mergeWalk, hk, ih]
      | some k =>
          cases hl : lookupAssoc mmap k with
          | none => simp [mergeWalk, hk, hl, ih]
          | some ma => simp [mergeWalk, hk, hl, ih]

theorem mergeWalk_used (mmap : List (String × ActionRec)) :
    ∀ (agent : List ActionRec) (used : List String) (k : String),
      (k ∈ (mergeWalk mmap agent used).2
        ↔ k ∈ used
          ∨ ∃ a ∈ agent, compute_action_key a = some k
              ∧ (lookupAssoc mmap k).isSome) := by
  intro agent
  induction agent with
  | nil => intro used k; simp [mergeWalk]
  | cons a rest ih =>
      intro used k
      cases hk : compute_action_key a with
      | none => simp [mergeWalk, hk, ih]
      | some k' =>
          cases hl : lookupAssoc mmap k' with
          | none =>
              by_cases hkk : k' = k
              · subst hkk
                simp [mergeWalk, hk, hl, ih]
              · simp [mergeWalk, hk, hl, ih, hkk]
          | some ma =>
              by_cases hkk : k' = k
              · subst hkk
                simp only [mergeWalk, hk, hl, ih, List.mem_cons]
                aesop
              · simp only [mergeWalk, hk, hl, ih, List.mem_cons]
                aesop

theorem keyedEntries_filter_map (manual : List ActionRec) (q : String → Bool) :
    ((keyedEntries manual).filter (fun p => q p.1)).map (fun p => p.2)
      = ((manual.filter (fun m => (truthyKey m).isSome)).filter
          (fun m =>
            match truthyKey m with
            | some k => q k
            | none => false)) := by
  induction manual with
  | nil => rfl
  | cons a rest ih =>
      cases ht : truthyKey a with
      | none => simp [keyedEntries, ht, List.filter_cons, ih]
      | some k =>
          by_cases hq : q k
          · simp [keyedEntries, ht, List.filter_cons, hq, ih]
          · simp [keyedEntries, ht, List.filter_cons, hq, ih]

theorem perform_merge_eq_specC3 (agent manual : List ActionRec)
    (h : distinctTruthyKeys manual) :
    perform_realtime_merge agent manual = mergeSpecC3 agent manual := by
  have hmap : buildManualMap manual = keyedEntries manual :=
    buildManualMap_eq manual h
  show (mergeWalk (buildManualMap manual) agent []).1
      ++ ((buildManualMap manual).filter
            (fun p =>
              !((mergeWalk (buildManualMap manual) agent []).2.contains p.1))).map
          (fun p => p.2)
    = mergeSpecC3 agent manual
  rw [hmap, mergeSpecC3]
  have hA : (mergeWalk (keyedEntries manual) agent []).1
      = agent.map (fun a =>
          match compute_action_key a with
          | some k =>
              match (manual.filter (fun m => (truthyKey m).isSome)).find?
                  (fun m => truthyKey m == some k) with
              | some m => m
              | none => a
          | none => a) := by
    rw [mergeWalk_fst]
    apply List.map_congr_left
    intro a _
    cases hk : compute_action_key a with
    | none => rfl
    | some k =>
        dsimp only
        rw [lookup_keyedEntries, find?_filter_truthy]
        cases hf : manual.find? (fun m => truthyKey m == some k) <;> rfl
  have hB : ((keyedEntries manual).filter
        (fun p =>
          !((mergeWalk (keyedEntries manual) agent []).2.contains p.1))).map
        (fun p => p.2)
      = (manual.filter (fun m => (truthyKey m).isSome)).filter
          (fun m =>
            match truthyKey m with
            | some k => !(agent.any (fun a => compute_action_key a == some k))
            | none => false) := by
    have hpt : ∀ p ∈ keyedEntries manual,
        (!((mergeWalk (keyedEntries manual) agent []).2.contains p.1))
          = !(agent.any (fun a => compute_action_key a == some p.1)) := by
      intro p hp
      have hsome : (lookupAssoc (keyedEntries manual) p.1).isSome :=
        lookup_mem_isSome (keyedEntries manual) p hp
      congr 1
      rw [Bool.eq_iff_iff]
      rw [List.elem_iff, List.any_eq_true]
      rw [mergeWalk_used (keyedEntries manual) agent [] p.1]
      simp only [List.not_mem_nil, false_or, hsome, and_true, beq_iff_eq]
    rw [List.filter_congr hpt]
    exact keyedEntries_filter_map manual
      (fun k => !(agent.any (fun a => compute_action_key a == some k)))
  rw [hA, hB]

/-- C3: after every recorder mutation the stored merged list is the real-time
merge of the two channels, and (whenever the keyed manual records carry
pairwise-distinct keys, as a key's dict semantics presumes) that merge equals
the claim's description `mergeSpecC3`: the agent channel walked in order with
manual records overriding on key matches, followed by each unmatched keyed
manual record exactly once — in particular a key shared between an agent and
a manual record yields the manual record's argument values in the output. -/
theorem c3_merge_refinement (cfg : SecretsConfig) (st : ActionState)
    (r : ActionRec) (agent manual : List ActionRec)
    (h : distinctTruthyKeys manual) :
    perform_realtime_merge agent manual = mergeSpecC3 agent manual
    ∧ (record_agent_action cfg st r).merged
        = perform_realtime_merge (record_agent_action cfg st r).agent_actions
            (record_agent_action cfg st r).manual_actions
    ∧ (record_manual_action st r).merged
        = perform_realtime_merge (record_manual_action st r).agent_actions
            (record_manual_action st r).manual_actions :=
  ⟨perform_merge_eq_specC3 agent manual h, rfl, rfl⟩

/-- Agent-channel navigate (no merge key). -/
def agentNavW : ActionRec := ⟨"navigate", [("url", "https://a.example/")]⟩

/-- Agent-channel click keyed by the fingerprint `#h1`. -/
def agentClickW : ActionRec := ⟨"click", [("hash", "#h1")]⟩

/-- Manual fill sharing the fingerprint key `#h1` with the agent click. -/
def manualFillW : ActionRec := ⟨"fill", [("hash", "#h1"), ("text", "alice")]⟩

/-- Manual-only click with an unmatched fallback key. -/
def manualOnlyW : ActionRec := ⟨"click", [("selector", "#logout")]⟩

/-- Witness for C3: the manual fill overrides the keyed agent click, the
navigate passes through, and the manual-only click is appended once. -/
theorem c3_merge_refinement_witness :
    perform_realtime_merge [agentNavW, agentClickW] [manualFillW, manualOnlyW]
      = mergeSpecC3 [agentNavW, agentClickW] [manualFillW, manualOnlyW]
    ∧ perform_realtime_merge [agentNavW, agentClickW] [manualFillW, manualOnlyW]
      = [agentNavW, manualFillW, manualOnlyW] :=
  ⟨(c3_merge_refinement cfgW ⟨[], [], []⟩ agentNavW [agentNavW, agentClickW]
      [manualFillW, manualOnlyW] (by unfold distinctTruthyKeys; decide)).1,
   by decide⟩
